import Mathlib

/- Verification of the `JsonToDocument` converter from
   `src/haystack/components/converters/json.py`.

   The component reads JSON text from sources (file paths or in-memory
   ByteStreams), parses it, and maps each JSON object to a Document with a
   `content` field and a filtered `meta` mapping.  Python dicts preserve
   insertion order, so JSON objects are modelled as ordered association
   lists; machine-level details (file handles, tqdm progress display) have
   no effect on the returned value and are not modelled beyond the
   `progress_bar` configuration flag itself. -/

namespace HaystackJson

/-- JSON values as produced by parsing: null, booleans, numbers (integers in
this model), strings, arrays and objects.  Objects are ordered key/value
lists with distinct keys, matching Python dict semantics. -/
inductive JsonValue where
  | null
  | bool (b : Bool)
  | num (n : Int)
  | str (s : String)
  | arr (items : List JsonValue)
  | obj (fields : List (String × JsonValue))

/-- A data source passed to `run`: a filesystem path (the constructor carries
the outcome of opening and reading the file as UTF-8 text, an operation that
can raise), a `ByteStream` (carrying the outcome of `source.data.decode`,
which can raise on invalid UTF-8), or a value of any other type. -/
inductive Source where
  | filePath (readResult : Except String String)
  | byteStream (decodeResult : Except String String)
  | otherKind

/-- The output entity built by `_create_document`: `content` receives the raw
looked-up JSON value (Python assigns it without coercion, so it need not be a
string), `meta` is an ordered key/value mapping. -/
structure Document where
  content : JsonValue
  meta : List (String × JsonValue)

/-- The converter's configuration, stored by `JsonToDocument.__init__`:
`content_field` (default `"content"`), `meta_fields` (default `None`) and
`progress_bar` (default `True`). -/
structure JsonToDocument where
  content_field : String
  meta_fields : Option (List String)
  progress_bar : Bool

/-- One warning-level log line emitted during a run. -/
inductive LogEntry where
  | failedToProcess (source : Source) (err : String)
  | unsupportedFormat (source : Source)
  | failedToCreate (data : JsonValue)

/-- The double-quote character (written via its code point to keep string
parsing of this file simple). -/
def dquote : Char := Char.ofNat 34

/-- The opening-brace character of a JSON object. -/
def lbrace : Char := Char.ofNat 123

/-- The closing-brace character of a JSON object. -/
def rbrace : Char := Char.ofNat 125

/-- Skip JSON whitespace. -/
def skipWs : List Char → List Char
  | [] => []
  | c :: cs => if c = ' ' || c = '\n' || c = '\t' || c = '\r' then skipWs cs else c :: cs

/-- Parse the body of a JSON string literal after its opening quote,
accumulating characters until the closing quote; a backslash escapes the
following character (with `\n` and `\t` decoded). -/
def parseStringBody : List Char → List Char → Option (String × List Char)
  | [], _ => none
  | '\\' :: [], _ => none
  | '\\' :: e :: cs2, acc =>
    parseStringBody cs2 ((if e = 'n' then '\n' else if e = 't' then '\t' else e) :: acc)
  | c :: cs1, acc =>
    if c = dquote then some (String.mk acc.reverse, cs1)
    else parseStringBody cs1 (c :: acc)

/-- Split a leading run of decimal digits from the input. -/
def takeDigits : List Char → List Char × List Char
  | [] => ([], [])
  | c :: cs =>
    if c.isDigit then
      let p := takeDigits cs
      (c :: p.1, p.2)
    else ([], c :: cs)

/-- Numeric value of a digit run. -/
def digitsToNat (ds : List Char) : Nat :=
  ds.foldl (fun a c => a * 10 + (c.toNat - 48)) 0

/-- Parse a (possibly negated) integer literal. -/
def parseNumber (cs : List Char) : Option (JsonValue × List Char) :=
  match cs with
  | '-' :: rest =>
    let p := takeDigits rest
    if p.1.isEmpty then none else some (JsonValue.num (-(digitsToNat p.1 : Int)), p.2)
  | _ =>
    let p := takeDigits cs
    if p.1.isEmpty then none else some (JsonValue.num (digitsToNat p.1), p.2)

/-- Consume an expected literal character sequence. -/
def expectLit : List Char → List Char → Option (List Char)
  | [], cs => some cs
  | _ :: _, [] => none
  | l :: ls, c :: cs => if c = l then expectLit ls cs else none

/-- Insert a key/value pair with Python-dict semantics: a repeated key
overwrites the earlier value in place, a new key is appended. -/
def insertField (fields : List (String × JsonValue)) (k : String) (v : JsonValue) :
    List (String × JsonValue) :=
  if fields.any (fun kv => kv.1 = k) then
    fields.map (fun kv => if kv.1 = k then (k, v) else kv)
  else fields ++ [(k, v)]

/-- Parsing mode of the recursive-descent parser: a single value, the
remaining elements of an array, or the remaining members of an object
(each loop carrying its accumulator). -/
inductive PMode where
  | value
  | arrItems (acc : List JsonValue)
  | objItems (acc : List (String × JsonValue))

/-- Fuel-indexed recursive-descent JSON parser.  In `value` mode it parses
one JSON value; in `arrItems`/`objItems` mode it parses the comma-separated
tail of a non-empty array or object. -/
def parseStep : Nat → PMode → List Char → Option (JsonValue × List Char)
  | 0, _, _ => none
  | Nat.succ fuel, PMode.value, cs =>
    match skipWs cs with
    | [] => none
    | c :: rest =>
      if c = dquote then
        match parseStringBody rest [] with
        | some sp => some (JsonValue.str sp.1, sp.2)
        | none => none
      else if c = lbrace then
        match skipWs rest with
        | c2 :: rest2 =>
          if c2 = rbrace then some (JsonValue.obj [], rest2)
          else parseStep fuel (PMode.objItems []) (c2 :: rest2)
        | [] => none
      else if c = '[' then
        match skipWs rest with
        | c2 :: rest2 =>
          if c2 = ']' then some (JsonValue.arr [], rest2)
          else parseStep fuel (PMode.arrItems []) (c2 :: rest2)
        | [] => none
      else if c = 't' then
        (expectLit ['r', 'u', 'e'] rest).map (fun r => (JsonValue.bool true, r))
      else if c = 'f' then
        (expectLit ['a', 'l', 's', 'e'] rest).map (fun r => (JsonValue.bool false, r))
      else if c = 'n' then
        (expectLit ['u', 'l', 'l'] rest).map (fun r => (JsonValue.null, r))
      else if c.isDigit || c = '-' then parseNumber (c :: rest)
      else none
  | Nat.succ fuel, PMode.arrItems acc, cs =>
    match parseStep fuel PMode.value cs with
    | none => none
    | some vp =>
      match skipWs vp.2 with
      | c :: rest =>
        if c = ',' then parseStep fuel (PMode.arrItems (acc ++ [vp.1])) rest
        else if c = ']' then some (JsonValue.arr (acc ++ [vp.1]), rest)
        else none
      | [] => none
  | Nat.succ fuel, PMode.objItems acc, cs =>
    match skipWs cs with
    | [] => none
    | c :: rest =>
      if c = dquote then
        match parseStringBody rest [] with
        | none => none
        | some kp =>
          match skipWs kp.2 with
          | c2 :: rest2 =>
            if c2 = ':' then
              match parseStep fuel PMode.value rest2 with
              | none => none
              | some vp =>
                match skipWs vp.2 with
                | c3 :: rest3 =>
                  if c3 = ',' then
                    parseStep fuel (PMode.objItems (insertField acc kp.1 vp.1)) rest3
                  else if c3 = rbrace then
                    some (JsonValue.obj (insertField acc kp.1 vp.1), rest3)
                  else none
                | [] => none
            else none
          | [] => none
      else none

/-- Parse one JSON value with the given fuel. -/
def parseValue (fuel : Nat) (cs : List Char) : Option (JsonValue × List Char) :=
  parseStep fuel PMode.value cs

/-- Model of the Python standard library `json.loads` (external to this
repository): parse the whole text as one JSON value, failing on syntax errors
or trailing data.  Floating-point literals and unicode escapes are outside
this model; the claims only constrain behaviour through the parse outcome. -/
def jsonLoads (text : String) : Except String JsonValue :=
  match parseValue (2 * text.length + 2) text.data with
  | some vp =>
    if (skipWs vp.2).isEmpty then Except.ok vp.1 else Except.error "Extra data"
  | none => Except.error "Expecting value"

/-- Translation of `_extract_content`: a path source is opened and read as
UTF-8 text (the `Source` carries that outcome), a ByteStream is decoded as
UTF-8, and any other source type raises `ValueError`. -/
def extractContent : Source → Except String String
  | Source.filePath r => r
  | Source.byteStream r => r
  | Source.otherKind => Except.error "Unsupported source type"

/-- The filter condition of the metadata comprehension in `_create_document`:
`not self.meta_fields` is true when `meta_fields` is `None` or the empty list
(both are falsy in Python). -/
def metaFieldsFalsy : Option (List String) → Bool
  | none => true
  | some l => l.isEmpty

/-- Python condition `not self.meta_fields or k in self.meta_fields`; the
right disjunct is only reached when `meta_fields` is a non-empty list. -/
def keepMetaKey (mf : Option (List String)) (k : String) : Bool :=
  metaFieldsFalsy mf ||
    (match mf with
     | some l => l.contains k
     | none => false)

/-- The successful body of `_create_document` on a dict:
`content = data.get(self.content_field, "")` and
`metadata = dict comprehension filtered by keepMetaKey`. -/
def mkDocument (cfg : JsonToDocument) (data : List (String × JsonValue)) : Document :=
  Document.mk ((data.lookup cfg.content_field).getD (JsonValue.str ""))
    (data.filter (fun kv => keepMetaKey cfg.meta_fields kv.1))

/-- Translation of `_create_document` applied to an arbitrary parsed value:
on a dict the try body succeeds and returns a Document; on any other value
`data.get` raises `AttributeError`, which the except branch turns into a
logged warning and `None`. -/
def createDocumentV (cfg : JsonToDocument) (data : JsonValue) :
    Option Document × List LogEntry :=
  match data with
  | JsonValue.obj fields => (some (mkDocument cfg fields), [])
  | _ => (none, [LogEntry.failedToCreate data])

/-- The per-source body of `run`'s loop: extract, parse, then dispatch on the
parsed shape; any exception from extraction or parsing is caught and logged,
a list maps each element through `_create_document` (appending only non-None
results), a dict yields a single document, and any other shape logs an
unsupported-format warning.  Returns the documents and warnings this source
contributes. -/
def processSource (cfg : JsonToDocument) (source : Source) :
    List Document × List LogEntry :=
  match extractContent source with
  | Except.error e => ([], [LogEntry.failedToProcess source e])
  | Except.ok text =>
    match jsonLoads text with
    | Except.error e => ([], [LogEntry.failedToProcess source e])
    | Except.ok (JsonValue.arr items) =>
      (items.filterMap (fun item => (createDocumentV cfg item).1),
       items.flatMap (fun item => (createDocumentV cfg item).2))
    | Except.ok (JsonValue.obj fields) =>
      ((createDocumentV cfg (JsonValue.obj fields)).1.toList,
       (createDocumentV cfg (JsonValue.obj fields)).2)
    | Except.ok _ => ([], [LogEntry.unsupportedFormat source])

/-- The value returned by a call to `run` together with the converter state
after the call (the Python method never assigns to `self`) and the warnings
logged during the call. -/
structure RunResult where
  self : JsonToDocument
  documents : List Document
  log : List LogEntry

/-- Translation of `run`: iterate over the sources in order (tqdm only
displays progress and never alters the sequence), appending each source's
documents to the accumulator, and return them all. -/
def run (cfg : JsonToDocument) (sources : List Source) : RunResult :=
  let acc := sources.foldl
    (fun acc source =>
      (acc.1 ++ (processSource cfg source).1, acc.2 ++ (processSource cfg source).2))
    (([], []) : List Document × List LogEntry)
  RunResult.mk cfg acc.1 acc.2

example : jsonLoads "\x7b\"content\": \"hello\", \"id\": 1\x7d" =
    Except.ok (JsonValue.obj [("content", JsonValue.str "hello"), ("id", JsonValue.num 1)]) := rfl

example : jsonLoads "[\x7b\"content\":\"a\"\x7d,\x7b\"content\":\"b\"\x7d]" =
    Except.ok (JsonValue.arr [JsonValue.obj [("content", JsonValue.str "a")],
      JsonValue.obj [("content", JsonValue.str "b")]]) := rfl

example : jsonLoads "\"just a string\"" = Except.ok (JsonValue.str "just a string") := rfl

example : jsonLoads "\x7binvalid json" = Except.error "Expecting value" := rfl

example : jsonLoads "[1, true, null, -7]" =
    Except.ok (JsonValue.arr [JsonValue.num 1, JsonValue.bool true, JsonValue.null,
      JsonValue.num (-7)]) := rfl

/-- Unfolding lemma for the metadata filter with no configured allow-list. -/
lemma keepMetaKey_none (k : String) : keepMetaKey none k = true := rfl

/-- Unfolding lemma for the metadata filter with a configured allow-list. -/
lemma keepMetaKey_some (l : List String) (k : String) :
    keepMetaKey (some l) k = (l.isEmpty || l.contains k) := rfl

/-- The document accumulator of `run`'s loop splits as the initial value
followed by the per-source contributions. -/
lemma run_foldl_documents (cfg : JsonToDocument) (sources : List Source) :
    ∀ init : List Document × List LogEntry,
      (sources.foldl
        (fun acc source =>
          (acc.1 ++ (processSource cfg source).1, acc.2 ++ (processSource cfg source).2))
        init).1
      = init.1 ++ (sources.map (fun s => (processSource cfg s).1)).flatten := by
  induction sources with
  | nil => intro init; simp
  | cons s t ih => intro init; simp [List.foldl_cons, ih, List.append_assoc]

/-- The documents returned by `run` are the flattened per-source results. -/
lemma run_documents_eq (cfg : JsonToDocument) (sources : List Source) :
    (run cfg sources).documents
      = (sources.map (fun s => (processSource cfg s).1)).flatten := by
  simpa [run] using run_foldl_documents cfg sources ([], [])

/-- `run` distributes over list concatenation of the sources. -/
lemma run_documents_append (cfg : JsonToDocument) (xs ys : List Source) :
    (run cfg (xs ++ ys)).documents = (run cfg xs).documents ++ (run cfg ys).documents := by
  simp [run_documents_eq]

/-- A singleton run returns exactly that source's documents. -/
lemma run_documents_single (cfg : JsonToDocument) (s : Source) :
    (run cfg [s]).documents = (processSource cfg s).1 := by
  simp [run_documents_eq]

/-- C7: the returned document list is the concatenation, in source order, of
the per-source document lists (each of which is in array-element order by
construction of `processSource`); an empty source list yields an empty
document list. -/
theorem C7_output_concatenation (cfg : JsonToDocument) (sources : List Source) :
    (run cfg sources).documents
        = (sources.map (fun s => (processSource cfg s).1)).flatten ∧
      (∀ xs ys, (run cfg (xs ++ ys)).documents
        = (run cfg xs).documents ++ (run cfg ys).documents) ∧
      (run cfg ([] : List Source)).documents = [] :=
  ⟨run_documents_eq cfg sources, fun xs ys => run_documents_append cfg xs ys, rfl⟩

/-- C8: `run` keeps no hidden state; running again from the state returned by
the first call, with the same sources, produces a structurally identical
result. -/
theorem C8_no_hidden_state (cfg : JsonToDocument) (sources : List Source) :
    run (run cfg sources).self sources = run cfg sources := rfl

/-- C9: the configuration fields `content_field`, `meta_fields` and
`progress_bar` are unchanged by any call to `run`. -/
theorem C9_config_unchanged (cfg : JsonToDocument) (sources : List Source) :
    (run cfg sources).self.content_field = cfg.content_field ∧
      (run cfg sources).self.meta_fields = cfg.meta_fields ∧
      (run cfg sources).self.progress_bar = cfg.progress_bar :=
  ⟨rfl, rfl, rfl⟩

/-- C1 (counterexample): with the allow-list configured as the empty list,
the emitted document's meta keys are not a subset of the allow-list — the
Python condition `not self.meta_fields` treats the empty list as falsy, so
the filter is disabled and every field is kept. -/
theorem C1_counterexample :
    (JsonToDocument.mk "content" (some []) true).meta_fields = some ([] : List String) ∧
      (mkDocument (JsonToDocument.mk "content" (some []) true)
        [("a", JsonValue.null)]).meta.map Prod.fst = ["a"] ∧
      ("a" : String) ∉ ([] : List String) :=
  ⟨rfl, rfl, by simp⟩

/-- C1 (amended): when a non-empty allow-list is configured, the emitted
document's meta keys are a subset of the allow-list; when no allow-list is
configured (`None`), the meta equals the full object's key/value mapping. -/
theorem C1_meta_invariant (cfg : JsonToDocument) (data : List (String × JsonValue)) :
    (∀ allow, cfg.meta_fields = some allow → allow ≠ [] →
      ∀ k ∈ (mkDocument cfg data).meta.map Prod.fst, k ∈ allow) ∧
      (cfg.meta_fields = none → (mkDocument cfg data).meta = data) := by
  constructor
  · intro allow hmf hne k hk
    simp only [mkDocument, List.mem_map, List.mem_filter] at hk
    obtain ⟨kv, ⟨hmem, hkeep⟩, hfst⟩ := hk
    rw [hmf, keepMetaKey_some] at hkeep
    rcases Bool.or_eq_true_iff.mp hkeep with hemp | hcon
    · exact absurd (List.isEmpty_iff.mp hemp) hne
    · rw [← hfst]
      exact List.mem_of_elem_eq_true hcon
  · intro hmf
    simp [mkDocument, hmf, keepMetaKey_none]

/-- C1 witness: applying the amended invariant with allow-list `["id"]` and
with no allow-list at concrete objects. -/
theorem C1_witness :
    (∀ k ∈ (mkDocument (JsonToDocument.mk "content" (some ["id"]) true)
        [("content", JsonValue.str "x"), ("id", JsonValue.num 7),
         ("extra", JsonValue.bool true)]).meta.map Prod.fst, k ∈ ["id"]) ∧
      (mkDocument (JsonToDocument.mk "content" none true)
        [("a", JsonValue.null)]).meta = [("a", JsonValue.null)] :=
  ⟨(C1_meta_invariant _ _).1 ["id"] rfl (by simp), (C1_meta_invariant _ _).2 rfl⟩

/-- C3: the constructed document's content is the object's value at
`content_field` when that key is present (assigned as-is, whatever JSON type
it has), and the empty string when it is absent. -/
theorem C3_content_lookup (cfg : JsonToDocument) (data : List (String × JsonValue)) :
    (∀ v, data.lookup cfg.content_field = some v → (mkDocument cfg data).content = v) ∧
      (data.lookup cfg.content_field = none →
        (mkDocument cfg data).content = JsonValue.str "") := by
  constructor
  · intro v h
    simp [mkDocument, h]
  · intro h
    simp [mkDocument, h]

/-- C3 witness: a non-string (numeric) content value is assigned as-is, and a
missing `content` key yields the empty string. -/
theorem C3_witness :
    (mkDocument (JsonToDocument.mk "content" none true)
        [("content", JsonValue.num 5)]).content = JsonValue.num 5 ∧
      (mkDocument (JsonToDocument.mk "content" none true)
        [("id", JsonValue.num 1)]).content = JsonValue.str "" :=
  ⟨(C3_content_lookup _ _).1 _ rfl, (C3_content_lookup _ _).2 rfl⟩

/-- C4: `content_field` is not excluded from meta — whenever the object
contains it and either no allow-list is configured or the allow-list contains
it, the pair appears in the document's meta (so the value occurs in both
`content` and `meta`). -/
theorem C4_content_field_kept (cfg : JsonToDocument) (data : List (String × JsonValue))
    (v : JsonValue) (hmem : (cfg.content_field, v) ∈ data)
    (hallow : cfg.meta_fields = none ∨
      ∃ allow, cfg.meta_fields = some allow ∧ cfg.content_field ∈ allow) :
    (cfg.content_field, v) ∈ (mkDocument cfg data).meta := by
  have hkeep : keepMetaKey cfg.meta_fields cfg.content_field = true := by
    rcases hallow with h | ⟨allow, h, hin⟩
    · rw [h, keepMetaKey_none]
    · rw [h, keepMetaKey_some]
      simp [Or.inr hin]
  simp only [mkDocument, List.mem_filter]
  exact ⟨hmem, hkeep⟩

/-- C4 witness: with allow-list `["content"]`, the `content` pair is kept in
meta while also being the document's content. -/
theorem C4_witness :
    ("content", JsonValue.str "x") ∈ (mkDocument
      (JsonToDocument.mk "content" (some ["content"]) true)
      [("content", JsonValue.str "x")]).meta :=
  C4_content_field_kept _ _ _ (by simp) (Or.inr ⟨["content"], rfl, by simp⟩)

/-- C10: an empty `meta_fields` list disables the filter: the meta contains
all of the object's fields, exactly as with no allow-list configured. -/
theorem C10_empty_allowlist (cfg : JsonToDocument) (data : List (String × JsonValue))
    (h : cfg.meta_fields = some []) :
    (mkDocument cfg data).meta = data ∧
      (mkDocument cfg data).meta
        = (mkDocument (JsonToDocument.mk cfg.content_field none cfg.progress_bar) data).meta := by
  constructor
  · simp [mkDocument, h, keepMetaKey_some]
  · simp [mkDocument, h, keepMetaKey_some, keepMetaKey_none]

/-- C10 witness: the empty allow-list keeps every field of a concrete
two-field object. -/
theorem C10_witness :
    (mkDocument (JsonToDocument.mk "content" (some []) true)
        [("a", JsonValue.null), ("b", JsonValue.num 2)]).meta
      = [("a", JsonValue.null), ("b", JsonValue.num 2)] :=
  (C10_empty_allowlist _ _ rfl).1

/-- Each array element that is a JSON object contributes exactly one
document through `_create_document`. -/
lemma filterMap_createDocumentV_obj (cfg : JsonToDocument)
    (objs : List (List (String × JsonValue))) :
    (objs.map JsonValue.obj).filterMap (fun item => (createDocumentV cfg item).1)
      = objs.map (mkDocument cfg) := by
  have h : ((fun item => (createDocumentV cfg item).1) ∘ JsonValue.obj)
      = some ∘ mkDocument cfg := rfl
  rw [List.filterMap_map, h, List.filterMap_eq_map]

/-- C2: a source whose text parses to a JSON array of K well-formed objects
produces exactly K documents, in the array's element order. -/
theorem C2_array_count_order (cfg : JsonToDocument) (source : Source) (text : String)
    (objs : List (List (String × JsonValue)))
    (hext : extractContent source = Except.ok text)
    (hparse : jsonLoads text = Except.ok (JsonValue.arr (objs.map JsonValue.obj))) :
    (processSource cfg source).1 = objs.map (mkDocument cfg) ∧
      (processSource cfg source).1.length = objs.length := by
  have h : (processSource cfg source).1
      = (objs.map JsonValue.obj).filterMap (fun item => (createDocumentV cfg item).1) := by
    simp [processSource, hext, hparse]
  rw [filterMap_createDocumentV_obj] at h
  exact ⟨h, by rw [h, List.length_map]⟩

/-- C2 witness: a two-object array source yields those two documents in
order. -/
theorem C2_witness :
    (processSource (JsonToDocument.mk "content" none true)
        (Source.byteStream (Except.ok "[\x7b\"content\":\"a\"\x7d,\x7b\"content\":\"b\"\x7d]"))).1
      = [mkDocument (JsonToDocument.mk "content" none true) [("content", JsonValue.str "a")],
         mkDocument (JsonToDocument.mk "content" none true) [("content", JsonValue.str "b")]] :=
  (C2_array_count_order (JsonToDocument.mk "content" none true)
    (Source.byteStream (Except.ok "[\x7b\"content\":\"a\"\x7d,\x7b\"content\":\"b\"\x7d]"))
    "[\x7b\"content\":\"a\"\x7d,\x7b\"content\":\"b\"\x7d]"
    [[("content", JsonValue.str "a")], [("content", JsonValue.str "b")]] rfl rfl).1

/-- C5: a source whose extraction fails (including the unsupported-kind
`ValueError`) or whose text fails to parse is caught: it contributes zero
documents, exactly one warning naming the source, and the surrounding
sources produce the same documents as if the failing source were absent
(`run` itself is a total function, so the call returns normally). -/
theorem C5_failure_isolated (cfg : JsonToDocument) (s : Source) (pre post : List Source)
    (hfail : (∃ e, extractContent s = Except.error e) ∨
      (∃ text e, extractContent s = Except.ok text ∧ jsonLoads text = Except.error e)) :
    (processSource cfg s).1 = [] ∧
      (∃ e, (processSource cfg s).2 = [LogEntry.failedToProcess s e]) ∧
      (run cfg (pre ++ s :: post)).documents
        = (run cfg pre).documents ++ (run cfg post).documents := by
  have hps : ∃ e, processSource cfg s = ([], [LogEntry.failedToProcess s e]) := by
    rcases hfail with ⟨e, he⟩ | ⟨t, e, ht, he⟩
    · exact ⟨e, by simp [processSource, he]⟩
    · exact ⟨e, by simp [processSource, ht, he]⟩
  obtain ⟨e, he⟩ := hps
  refine ⟨by rw [he], ⟨e, by rw [he]⟩, ?_⟩
  have hsplit : pre ++ s :: post = (pre ++ [s]) ++ post := by simp
  rw [hsplit, run_documents_append, run_documents_append, run_documents_single, he]
  simp

/-- C5 witness: an unsupported source kind between two good sources
contributes nothing and leaves the neighbours' output unchanged. -/
theorem C5_witness :
    (processSource (JsonToDocument.mk "content" none true) Source.otherKind).1 = [] ∧
      (run (JsonToDocument.mk "content" none true)
          ([Source.byteStream (Except.ok "\x7b\"content\":\"hello\"\x7d")] ++ Source.otherKind ::
            [Source.byteStream (Except.ok "\x7b\"id\":1\x7d")])).documents
        = (run (JsonToDocument.mk "content" none true)
            [Source.byteStream (Except.ok "\x7b\"content\":\"hello\"\x7d")]).documents
          ++ (run (JsonToDocument.mk "content" none true)
            [Source.byteStream (Except.ok "\x7b\"id\":1\x7d")]).documents :=
  ⟨(C5_failure_isolated (JsonToDocument.mk "content" none true) Source.otherKind
      [Source.byteStream (Except.ok "\x7b\"content\":\"hello\"\x7d")]
      [Source.byteStream (Except.ok "\x7b\"id\":1\x7d")]
      (Or.inl ⟨"Unsupported source type", rfl⟩)).1,
   (C5_failure_isolated (JsonToDocument.mk "content" none true) Source.otherKind
      [Source.byteStream (Except.ok "\x7b\"content\":\"hello\"\x7d")]
      [Source.byteStream (Except.ok "\x7b\"id\":1\x7d")]
      (Or.inl ⟨"Unsupported source type", rfl⟩)).2.2⟩

/-- Classifier for the `else` branch of `run`'s shape dispatch: parsed values
that are neither a dict nor a list. -/
def isScalarJson : JsonValue → Bool
  | JsonValue.obj _ => false
  | JsonValue.arr _ => false
  | _ => true

/-- C6: a source parsing to a JSON value that is neither object nor array
yields an unsupported-format warning naming the source, zero documents, and
processing of the surrounding sources is unaffected. -/
theorem C6_unsupported_shape (cfg : JsonToDocument) (s : Source) (text : String)
    (v : JsonValue) (hext : extractContent s = Except.ok text)
    (hparse : jsonLoads text = Except.ok v) (hshape : isScalarJson v = true) :
    (processSource cfg s).1 = [] ∧
      (processSource cfg s).2 = [LogEntry.unsupportedFormat s] ∧
      ∀ pre post, (run cfg (pre ++ s :: post)).documents
        = (run cfg pre).documents ++ (run cfg post).documents := by
  have hps : processSource cfg s = ([], [LogEntry.unsupportedFormat s]) := by
    cases v with
    | null => simp [processSource, hext, hparse]
    | bool b => simp [processSource, hext, hparse]
    | num n => simp [processSource, hext, hparse]
    | str t => simp [processSource, hext, hparse]
    | arr items => simp [isScalarJson] at hshape
    | obj fields => simp [isScalarJson] at hshape
  refine ⟨by rw [hps], by rw [hps], ?_⟩
  intro pre post
  have hsplit : pre ++ s :: post = (pre ++ [s]) ++ post := by simp
  rw [hsplit, run_documents_append, run_documents_append, run_documents_single, hps]
  simp

/-- C6 witness: the source text `"just a string"` is valid JSON of the wrong
shape and yields zero documents and one unsupported-format warning. -/
theorem C6_witness :
    (processSource (JsonToDocument.mk "content" none true)
        (Source.byteStream (Except.ok "\"just a string\""))).1 = [] ∧
      (processSource (JsonToDocument.mk "content" none true)
          (Source.byteStream (Except.ok "\"just a string\""))).2
        = [LogEntry.unsupportedFormat (Source.byteStream (Except.ok "\"just a string\""))] :=
  ⟨(C6_unsupported_shape (JsonToDocument.mk "content" none true)
      (Source.byteStream (Except.ok "\"just a string\"")) "\"just a string\""
      (JsonValue.str "just a string") rfl rfl rfl).1,
   (C6_unsupported_shape (JsonToDocument.mk "content" none true)
      (Source.byteStream (Except.ok "\"just a string\"")) "\"just a string\""
      (JsonValue.str "just a string") rfl rfl rfl).2.1⟩

end HaystackJson
